import Mathlib

/-!
Shallow embedding of `integration_test/scripts/chaos_monkey.py`.

The script drives an external container CLI from a single loop, keeping a
mutable set `stopped_services` and a flag `print_ps`.  Each iteration may
start one stopped service or stop one available service, chosen by random
draws; a status (`ps`) command is issued whenever the flag is set.

Modelling choices:
- service names are `String`s; the mutable set is a `Finset String`;
- the two `random.random()` draws of an iteration and the two
  `random.choice` index picks are supplied by a `Draws` oracle (floats in
  `[0,1)` become rationals; claims add the range bounds where they matter);
- `random.choice(list(s))` is modelled as indexing an enumeration of the
  set at an oracle-supplied index, reduced modulo the size, so every
  element can be chosen;
- `subprocess.call` returns an exit code taken from an `Exits` oracle; the
  script discards that return value, so it is only recorded in the trace;
- each iteration of the `while True` loop is the function `mainStep`,
  returning the new state, the list of issued commands paired with their
  exit codes, and whether the "just sleeping" message was logged instead
  of a status print; `mainRun` iterates it over a list of oracles.
-/

/-- The fixed universe of controllable nodes (`ALL_SERVICES` in the script). -/
def ALL_SERVICES : Finset String := {"node1", "node2", "node3"}

/-- An external command issued via the docker-compose CLI. -/
inductive Command where
  | start (service : String)
  | stop (service : String)
  | ps
deriving DecidableEq

/-- The loop-local mutable state of `main`: the set of services the driver
believes are stopped, and the status-print-due flag. -/
structure ChaosState where
  stopped_services : Finset String
  print_ps : Bool
deriving DecidableEq

/-- The random values one iteration may consume: the two `random.random()`
draws guarding the start/stop branches, and the two `random.choice`
selection indices. -/
structure Draws where
  startDraw : ℚ
  startChoice : ℕ
  stopDraw : ℚ
  stopChoice : ℕ
deriving DecidableEq

/-- The exit codes the three possible `subprocess.call` invocations of one
iteration would return (the script never inspects them). -/
structure Exits where
  startExit : ℤ
  stopExit : ℤ
  psExit : ℤ
deriving DecidableEq

/-- `random.choice(list(s))`: pick an element of the finite set `s`, the
oracle index `i` deciding which one (reduced modulo the size, over a fixed
enumeration of the set). -/
def choice (s : Finset String) (i : ℕ) : String :=
  (s.sort (· ≤ ·)).getD (i % s.card) ""

/-- One iteration of the `while True` loop of `main`.  Arguments follow the
parameter order of `main(services, stopping_chance, starting_chance,
sleep_time)`.  Returns the state after the iteration, the commands issued
(with the exit codes their `subprocess.call` returned), and whether the
"Not doing anything this iteration, just sleeping" message was printed. -/
def mainStep (services : Finset String) (stopping_chance starting_chance sleep_time : ℚ)
    (d : Draws) (e : Exits) (s : ChaosState) :
    ChaosState × List (Command × ℤ) × Bool :=
  let available_services := services \ s.stopped_services
  let step1 : ChaosState × List (Command × ℤ) :=
    if s.stopped_services.Nonempty ∧ d.startDraw < starting_chance then
      (ChaosState.mk (s.stopped_services.erase (choice s.stopped_services d.startChoice)) true,
        [(Command.start (choice s.stopped_services d.startChoice), e.startExit)])
    else if available_services.Nonempty ∧ d.stopDraw < stopping_chance then
      (ChaosState.mk (insert (choice available_services d.stopChoice) s.stopped_services) true,
        [(Command.stop (choice available_services d.stopChoice), e.stopExit)])
    else (s, [])
  if step1.1.print_ps then
    (ChaosState.mk step1.1.stopped_services false, step1.2 ++ [(Command.ps, e.psExit)], false)
  else
    (step1.1, step1.2, true)

/-- The loop state on entry to `while True`: empty stopped set,
`print_ps = True`. -/
def initState : ChaosState := ChaosState.mk ∅ true

/-- Iterating the loop body over a list of per-iteration oracles, collecting
the full command trace. -/
def mainRun (services : Finset String) (stopping_chance starting_chance sleep_time : ℚ) :
    List (Draws × Exits) → ChaosState → ChaosState × List (Command × ℤ)
  | [], s => (s, [])
  | de :: rest, s =>
    let r := mainStep services stopping_chance starting_chance sleep_time de.1 de.2 s
    let r2 := mainRun services stopping_chance starting_chance sleep_time rest r.1
    (r2.1, r.2.1 ++ r2.2)

/-- `str.strip()` on a list of characters: drop whitespace from both ends. -/
def strip (l : List Char) : List Char :=
  ((l.dropWhile Char.isWhitespace).reverse.dropWhile Char.isWhitespace).reverse

/-- `s.split(',')` on a list of characters: split at every comma; the empty
input yields one empty piece, like Python's `''.split(',') == ['']`. -/
def splitCommas : List Char → List (List Char)
  | [] => [[]]
  | c :: rest =>
    match splitCommas rest with
    | [] => [[c]]
    | p :: ps => if c = ',' then [] :: p :: ps else (c :: p) :: ps

/-- The `--services` argument conversion
`lambda s: set(x.strip() for x in s.split(','))`. -/
def parseServices (s : String) : Finset String :=
  ((splitCommas s.data).map (fun l => String.mk (strip l))).toFinset

/-- The values `main` is called with, one field per `argparse` option. -/
structure Args where
  services : Finset String
  stopping_chance : ℚ
  starting_chance : ℚ
  sleep_time : ℚ
deriving DecidableEq

/-- The argument parser: each option is either absent (`none`, taking the
declared default) or supplied.  `--services` goes through `parseServices`;
the defaults are `ALL_SERVICES`, `0.1`, `0.3` and `5`. -/
def parseArgs (services : Option String) (stopping starting sleep : Option ℚ) : Args :=
  Args.mk
    ((services.map parseServices).getD ALL_SERVICES)
    (stopping.getD (0.1 : ℚ))
    (starting.getD (0.3 : ℚ))
    (sleep.getD (5 : ℚ))

/-- Does a traced command start a service? -/
def isStartCmd : Command × ℤ → Bool
  | (Command.start _, _) => true
  | _ => false

/-- Does a traced command stop a service? -/
def isStopCmd : Command × ℤ → Bool
  | (Command.stop _, _) => true
  | _ => false

/-- A chosen element always belongs to the (non-empty) set it is chosen from. -/
theorem choice_mem (s : Finset String) (i : ℕ) (h : s.Nonempty) : choice s i ∈ s := by
  have hcard : 0 < s.card := Finset.card_pos.mpr h
  have hlt : i % s.card < (s.sort (· ≤ ·)).length := by
    rw [Finset.length_sort]; exact Nat.mod_lt _ hcard
  rw [← Finset.mem_sort (α := String) (· ≤ ·), choice, List.getD_eq_getElem _ _ hlt]
  exact List.getElem_mem hlt

/-- Branch shape: the start branch fires. -/
theorem mainStep_start (services : Finset String) (stopping_chance starting_chance sleep_time : ℚ)
    (d : Draws) (e : Exits) (s : ChaosState)
    (h : s.stopped_services.Nonempty ∧ d.startDraw < starting_chance) :
    mainStep services stopping_chance starting_chance sleep_time d e s =
      (ChaosState.mk (s.stopped_services.erase (choice s.stopped_services d.startChoice)) false,
       [(Command.start (choice s.stopped_services d.startChoice), e.startExit),
        (Command.ps, e.psExit)], false) := by
  simp [mainStep, h]

/-- Branch shape: the start branch does not fire and the stop branch does. -/
theorem mainStep_stop (services : Finset String) (stopping_chance starting_chance sleep_time : ℚ)
    (d : Draws) (e : Exits) (s : ChaosState)
    (h1 : ¬(s.stopped_services.Nonempty ∧ d.startDraw < starting_chance))
    (h2 : (services \ s.stopped_services).Nonempty ∧ d.stopDraw < stopping_chance) :
    mainStep services stopping_chance starting_chance sleep_time d e s =
      (ChaosState.mk
        (insert (choice (services \ s.stopped_services) d.stopChoice) s.stopped_services) false,
       [(Command.stop (choice (services \ s.stopped_services) d.stopChoice), e.stopExit),
        (Command.ps, e.psExit)], false) := by
  simp [mainStep, h1, h2]

/-- Branch shape: no action, but a status print was due. -/
theorem mainStep_ps (services : Finset String) (stopping_chance starting_chance sleep_time : ℚ)
    (d : Draws) (e : Exits) (s : ChaosState)
    (h1 : ¬(s.stopped_services.Nonempty ∧ d.startDraw < starting_chance))
    (h2 : ¬((services \ s.stopped_services).Nonempty ∧ d.stopDraw < stopping_chance))
    (hp : s.print_ps = true) :
    mainStep services stopping_chance starting_chance sleep_time d e s =
      (ChaosState.mk s.stopped_services false, [(Command.ps, e.psExit)], false) := by
  simp [mainStep, h1, h2, hp]

/-- Branch shape: no action and no status print due — the sleeping message. -/
theorem mainStep_sleep (services : Finset String) (stopping_chance starting_chance sleep_time : ℚ)
    (d : Draws) (e : Exits) (s : ChaosState)
    (h1 : ¬(s.stopped_services.Nonempty ∧ d.startDraw < starting_chance))
    (h2 : ¬((services \ s.stopped_services).Nonempty ∧ d.stopDraw < stopping_chance))
    (hp : s.print_ps = false) :
    mainStep services stopping_chance starting_chance sleep_time d e s = (s, [], true) := by
  simp [mainStep, h1, h2, hp]

/-- A draw oracle whose values are all zero (legal values of `random.random()`
and of a choice index). -/
def dZero : Draws := Draws.mk 0 0 0 0

/-- All external commands exit with status 0. -/
def eZero : Exits := Exits.mk 0 0 0

/-- All external commands exit with status 1 (failure). -/
def eOne : Exits := Exits.mk 1 1 1

/-- Choosing from a singleton set yields its element. -/
theorem choice_singleton (a : String) (i : ℕ) : choice {a} i = a := by
  simp [choice, Finset.sort_singleton, Nat.mod_one]

/-- Sorting a two-element set listed in increasing order. -/
theorem sort_pair (a b : String) (hlt : a < b) :
    Finset.sort (· ≤ ·) ({a, b} : Finset String) = [a, b] := by
  rw [Finset.sort_insert]
  · rw [Finset.sort_singleton]
  · intro c hc; rw [Finset.mem_singleton] at hc; subst hc; exact le_of_lt hlt
  · rw [Finset.mem_singleton]; exact ne_of_lt hlt

/-- A two-element set has cardinality two. -/
theorem card_pair (a b : String) (hne : a ≠ b) : ({a, b} : Finset String).card = 2 := by
  rw [Finset.card_insert_of_not_mem, Finset.card_singleton]
  rw [Finset.mem_singleton]; exact hne

/-- Choosing at index 0 from a two-element set yields the smaller element. -/
theorem choice_pair_zero (a b : String) (hlt : a < b) : choice {a, b} 0 = a := by
  rw [choice, sort_pair a b hlt, card_pair a b (ne_of_lt hlt)]
  rfl

/-- One iteration keeps the stopped set inside the configured service set. -/
theorem mainStep_stopped_subset (services : Finset String)
    (stopping_chance starting_chance sleep_time : ℚ) (d : Draws) (e : Exits) (s : ChaosState)
    (h : s.stopped_services ⊆ services) :
    (mainStep services stopping_chance starting_chance sleep_time d e s).1.stopped_services
      ⊆ services := by
  by_cases hc1 : s.stopped_services.Nonempty ∧ d.startDraw < starting_chance
  · rw [mainStep_start _ _ _ _ _ _ _ hc1]
    exact Finset.Subset.trans (Finset.erase_subset _ _) h
  · by_cases hc2 : (services \ s.stopped_services).Nonempty ∧ d.stopDraw < stopping_chance
    · rw [mainStep_stop _ _ _ _ _ _ _ hc1 hc2]
      exact Finset.insert_subset (Finset.mem_sdiff.mp (choice_mem _ _ hc2.1)).1 h
    · cases hp : s.print_ps
      · rw [mainStep_sleep _ _ _ _ _ _ _ hc1 hc2 hp]; exact h
      · rw [mainStep_ps _ _ _ _ _ _ _ hc1 hc2 hp]; exact h

/-- Any number of iterations keeps the stopped set inside the service set. -/
theorem mainRun_stopped_subset (services : Finset String)
    (stopping_chance starting_chance sleep_time : ℚ) (l : List (Draws × Exits)) (s : ChaosState)
    (h : s.stopped_services ⊆ services) :
    (mainRun services stopping_chance starting_chance sleep_time l s).1.stopped_services
      ⊆ services := by
  induction l generalizing s with
  | nil => exact h
  | cons de rest ih =>
    exact ih _ (mainStep_stopped_subset _ _ _ _ _ _ _ h)

/-- C1: from the initial empty stopped set, after any number of iterations
under any draws and exit codes, the stopped set is a subset of the
configured service set, and the available set (service set minus stopped
set) is complementary to it within the service set. -/
theorem chaosLoop_stopped_complementary (services : Finset String)
    (stopping_chance starting_chance sleep_time : ℚ) (l : List (Draws × Exits)) :
    (mainRun services stopping_chance starting_chance sleep_time l initState).1.stopped_services
        ⊆ services ∧
    (services \
        (mainRun services stopping_chance starting_chance sleep_time l
          initState).1.stopped_services) ∪
      (mainRun services stopping_chance starting_chance sleep_time l
          initState).1.stopped_services = services ∧
    Disjoint
      (services \
        (mainRun services stopping_chance starting_chance sleep_time l
          initState).1.stopped_services)
      (mainRun services stopping_chance starting_chance sleep_time l
          initState).1.stopped_services := by
  have hsub := mainRun_stopped_subset services stopping_chance starting_chance sleep_time l
    initState (by simp [initState])
  exact ⟨hsub, Finset.sdiff_union_of_subset hsub, Finset.sdiff_disjoint⟩

/-- C2: one iteration issues at most one start/stop command and changes the
membership of at most one service; when the stopped set is non-empty and the
start draw succeeds, exactly one start and no stop is issued regardless of
the stop draw, and a stop is issued only when the start branch was not
taken. -/
theorem mainStep_single_action (services : Finset String)
    (stopping_chance starting_chance sleep_time : ℚ) (d : Draws) (e : Exits) (s : ChaosState) :
    (mainStep services stopping_chance starting_chance sleep_time d e s).2.1.countP
        (fun ce => isStartCmd ce || isStopCmd ce) ≤ 1 ∧
    ((mainStep services stopping_chance starting_chance sleep_time d e s).1.stopped_services
        = s.stopped_services ∨
      (∃ x, (mainStep services stopping_chance starting_chance sleep_time d e
          s).1.stopped_services = s.stopped_services.erase x) ∨
      (∃ x, (mainStep services stopping_chance starting_chance sleep_time d e
          s).1.stopped_services = insert x s.stopped_services)) ∧
    ((s.stopped_services.Nonempty ∧ d.startDraw < starting_chance) →
      (mainStep services stopping_chance starting_chance sleep_time d e s).2.1.countP
          isStartCmd = 1 ∧
      (mainStep services stopping_chance starting_chance sleep_time d e s).2.1.countP
          isStopCmd = 0) ∧
    ((mainStep services stopping_chance starting_chance sleep_time d e s).2.1.countP
        isStopCmd = 1 →
      ¬(s.stopped_services.Nonempty ∧ d.startDraw < starting_chance)) := by
  by_cases hc1 : s.stopped_services.Nonempty ∧ d.startDraw < starting_chance
  · rw [mainStep_start _ _ _ _ _ _ _ hc1]
    refine ⟨?_, Or.inr (Or.inl ⟨_, rfl⟩), fun _ => ⟨?_, ?_⟩, fun hcount => ?_⟩
    · simp [List.countP_cons, isStartCmd, isStopCmd]
    · simp [List.countP_cons, isStartCmd, isStopCmd]
    · simp [List.countP_cons, isStartCmd, isStopCmd]
    · simp [List.countP_cons, isStartCmd, isStopCmd] at hcount
  · by_cases hc2 : (services \ s.stopped_services).Nonempty ∧ d.stopDraw < stopping_chance
    · rw [mainStep_stop _ _ _ _ _ _ _ hc1 hc2]
      refine ⟨?_, Or.inr (Or.inr ⟨_, rfl⟩), fun h => absurd h hc1, fun _ => hc1⟩
      simp [List.countP_cons, isStartCmd, isStopCmd]
    · cases hp : s.print_ps
      · rw [mainStep_sleep _ _ _ _ _ _ _ hc1 hc2 hp]
        refine ⟨by simp, Or.inl rfl, fun h => absurd h hc1, fun hcount => ?_⟩
        simp at hcount
      · rw [mainStep_ps _ _ _ _ _ _ _ hc1 hc2 hp]
        refine ⟨?_, Or.inl rfl, fun h => absurd h hc1, fun hcount => ?_⟩
        · simp [List.countP_cons, isStartCmd, isStopCmd]
        · simp [List.countP_cons, isStartCmd, isStopCmd] at hcount

/-- Concrete check of C2's start-priority conjunct at an explicit input. -/
theorem mainStep_single_action_witness :
    (mainStep {"a"} 1 1 0 dZero eZero (ChaosState.mk {"a"} false)).2.1.countP isStartCmd = 1 ∧
    (mainStep {"a"} 1 1 0 dZero eZero (ChaosState.mk {"a"} false)).2.1.countP isStopCmd = 0 :=
  (mainStep_single_action {"a"} 1 1 0 dZero eZero (ChaosState.mk {"a"} false)).2.2.1
    ⟨by decide, by decide⟩

/-- Unfolding equation: the empty run. -/
theorem mainRun_nil (services : Finset String)
    (stopping_chance starting_chance sleep_time : ℚ) (s : ChaosState) :
    mainRun services stopping_chance starting_chance sleep_time [] s = (s, []) := rfl

/-- Unfolding equation: one iteration followed by the rest of the run. -/
theorem mainRun_cons (services : Finset String)
    (stopping_chance starting_chance sleep_time : ℚ) (de : Draws × Exits)
    (rest : List (Draws × Exits)) (s : ChaosState) :
    mainRun services stopping_chance starting_chance sleep_time (de :: rest) s =
      ((mainRun services stopping_chance starting_chance sleep_time rest
          (mainStep services stopping_chance starting_chance sleep_time de.1 de.2 s).1).1,
       (mainStep services stopping_chance starting_chance sleep_time de.1 de.2 s).2.1 ++
         (mainRun services stopping_chance starting_chance sleep_time rest
          (mainStep services stopping_chance starting_chance sleep_time de.1 de.2 s).1).2) :=
  rfl

/-- The state after one iteration does not depend on the exit codes. -/
theorem mainStep_state_exits (services : Finset String)
    (stopping_chance starting_chance sleep_time : ℚ) (d : Draws) (e e' : Exits)
    (s : ChaosState) :
    (mainStep services stopping_chance starting_chance sleep_time d e s).1 =
      (mainStep services stopping_chance starting_chance sleep_time d e' s).1 := by
  by_cases hc1 : s.stopped_services.Nonempty ∧ d.startDraw < starting_chance
  · rw [mainStep_start _ _ _ _ _ _ _ hc1, mainStep_start _ _ _ _ _ _ _ hc1]
  · by_cases hc2 : (services \ s.stopped_services).Nonempty ∧ d.stopDraw < stopping_chance
    · rw [mainStep_stop _ _ _ _ _ _ _ hc1 hc2, mainStep_stop _ _ _ _ _ _ _ hc1 hc2]
    · cases hp : s.print_ps
      · rw [mainStep_sleep _ _ _ _ _ _ _ hc1 hc2 hp, mainStep_sleep _ _ _ _ _ _ _ hc1 hc2 hp]
      · rw [mainStep_ps _ _ _ _ _ _ _ hc1 hc2 hp, mainStep_ps _ _ _ _ _ _ _ hc1 hc2 hp]

/-- Two runs with the same draws (and possibly different exit codes) reach
the same state. -/
theorem mainRun_state_draws (services : Finset String)
    (stopping_chance starting_chance sleep_time : ℚ) :
    ∀ (l l' : List (Draws × Exits)) (s : ChaosState), l.map Prod.fst = l'.map Prod.fst →
      (mainRun services stopping_chance starting_chance sleep_time l s).1 =
        (mainRun services stopping_chance starting_chance sleep_time l' s).1 := by
  intro l
  induction l with
  | nil =>
    intro l' s h
    cases l' with
    | nil => rfl
    | cons de' rest' => simp at h
  | cons de rest ih =>
    intro l' s h
    cases l' with
    | nil => simp at h
    | cons de' rest' =>
      simp only [List.map_cons, List.cons.injEq] at h
      obtain ⟨hd, ht⟩ := h
      have hstep : (mainStep services stopping_chance starting_chance sleep_time de.1 de.2 s).1
          = (mainStep services stopping_chance starting_chance sleep_time de'.1 de'.2 s).1 := by
        rw [← hd]
        exact mainStep_state_exits services stopping_chance starting_chance sleep_time
          de.1 de.2 de'.2 s
      rw [mainRun_cons, mainRun_cons]
      simp only []
      rw [hstep]
      exact ih rest' _ ht

/-- C3: the internal state (stopped set and status-print flag) after every
iteration is the same for any two runs with the same random draws and
arbitrary, possibly differing, command exit codes. -/
theorem mainRun_state_exit_independent (services : Finset String)
    (stopping_chance starting_chance sleep_time : ℚ) (l l' : List (Draws × Exits))
    (h : l.map Prod.fst = l'.map Prod.fst) (n : ℕ) :
    (mainRun services stopping_chance starting_chance sleep_time (l.take n) initState).1 =
      (mainRun services stopping_chance starting_chance sleep_time (l'.take n) initState).1 := by
  apply mainRun_state_draws
  rw [List.map_take, List.map_take, h]

/-- Concrete check of C3: same draw, exit 0 versus exit 1, same state. -/
theorem mainRun_state_exit_independent_witness :
    (mainRun {"a"} 1 1 0 ([(dZero, eZero)].take 1) initState).1 =
      (mainRun {"a"} 1 1 0 ([(dZero, eOne)].take 1) initState).1 :=
  mainRun_state_exit_independent {"a"} 1 1 0 [(dZero, eZero)] [(dZero, eOne)] rfl 1

/-- C5: with starting-chance 1 (every start draw in `[0,1)` succeeds), a run
of as many iterations as the initial stopped set has elements performs one
start per iteration — the trace holds exactly that many start commands —
and ends with the stopped set empty. -/
theorem mainRun_starting_one (services : Finset String) (stopping_chance sleep_time : ℚ)
    (l : List (Draws × Exits)) (s : ChaosState)
    (hd : ∀ de ∈ l, de.1.startDraw < 1)
    (hn : l.length = s.stopped_services.card) :
    (mainRun services stopping_chance 1 sleep_time l s).1.stopped_services = ∅ ∧
    (mainRun services stopping_chance 1 sleep_time l s).2.countP isStartCmd = l.length := by
  induction l generalizing s with
  | nil =>
    exact ⟨Finset.card_eq_zero.mp hn.symm, rfl⟩
  | cons de rest ih =>
    have hn' : rest.length + 1 = s.stopped_services.card := by simpa using hn
    have hne : s.stopped_services.Nonempty := by
      rw [← Finset.card_pos, ← hn']; exact Nat.succ_pos _
    have hc1 : s.stopped_services.Nonempty ∧ de.1.startDraw < 1 :=
      ⟨hne, hd de (List.mem_cons_self _ _)⟩
    have hstep := mainStep_start services stopping_chance 1 sleep_time de.1 de.2 s hc1
    obtain ⟨ihe, ihc⟩ := ih
      (ChaosState.mk
        (s.stopped_services.erase (choice s.stopped_services de.1.startChoice)) false)
      (fun de' h' => hd de' (List.mem_cons_of_mem _ h'))
      (by
        simp only [Finset.card_erase_of_mem (choice_mem _ _ hne)]
        omega)
    rw [mainRun_cons, hstep]
    refine ⟨ihe, ?_⟩
    simp only [List.countP_append, List.countP_cons, List.countP_nil]
    simp only [isStartCmd]
    simp [ihc]
    omega

/-- Concrete check of C5: one stopped service, one iteration, one start. -/
theorem mainRun_starting_one_witness :
    (mainRun {"a"} 0 1 0 [(dZero, eZero)] (ChaosState.mk {"a"} false)).1.stopped_services = ∅ ∧
    (mainRun {"a"} 0 1 0 [(dZero, eZero)] (ChaosState.mk {"a"} false)).2.countP isStartCmd
      = [(dZero, eZero)].length :=
  mainRun_starting_one {"a"} 0 0 [(dZero, eZero)] (ChaosState.mk {"a"} false)
    (by decide) (by decide)

/-- With both chances zero and non-negative draws, an iteration from an
empty stopped set keeps it empty and issues at most a status command. -/
theorem mainRun_zero_aux (services : Finset String) (sleep_time : ℚ) :
    ∀ (l : List (Draws × Exits)) (s : ChaosState), s.stopped_services = ∅ →
      (∀ de ∈ l, 0 ≤ de.1.startDraw ∧ 0 ≤ de.1.stopDraw) →
      (mainRun services 0 0 sleep_time l s).1.stopped_services = ∅ ∧
      ∀ ce ∈ (mainRun services 0 0 sleep_time l s).2, ce.1 = Command.ps := by
  intro l
  induction l with
  | nil =>
    intro s hs _
    refine ⟨hs, ?_⟩
    intro ce hce
    simp [mainRun_nil] at hce
  | cons de rest ih =>
    intro s hs hd
    have hc1 : ¬(s.stopped_services.Nonempty ∧ de.1.startDraw < 0) := by
      rw [hs]
      rintro ⟨hne, _⟩
      exact Finset.not_nonempty_empty hne
    have hc2 : ¬((services \ s.stopped_services).Nonempty ∧ de.1.stopDraw < 0) := by
      rintro ⟨_, hlt⟩
      exact absurd hlt (not_lt.mpr (hd de (List.mem_cons_self _ _)).2)
    have hdrest : ∀ de' ∈ rest, 0 ≤ de'.1.startDraw ∧ 0 ≤ de'.1.stopDraw :=
      fun de' h' => hd de' (List.mem_cons_of_mem _ h')
    cases hp : s.print_ps
    · have hstep := mainStep_sleep services 0 0 sleep_time de.1 de.2 s hc1 hc2 hp
      rw [mainRun_cons, hstep]
      obtain ⟨ih1, ih2⟩ := ih s hs hdrest
      refine ⟨ih1, ?_⟩
      intro ce hce
      rw [List.nil_append] at hce
      exact ih2 ce hce
    · have hstep := mainStep_ps services 0 0 sleep_time de.1 de.2 s hc1 hc2 hp
      rw [mainRun_cons, hstep]
      obtain ⟨ih1, ih2⟩ := ih (ChaosState.mk s.stopped_services false) hs hdrest
      refine ⟨ih1, ?_⟩
      intro ce hce
      rcases List.mem_append.mp hce with hl | hr
      · rw [List.mem_singleton] at hl
        rw [hl]
      · exact ih2 ce hr

/-- C6: with stopping-chance 0 and starting-chance 0, for all (non-negative)
draw sequences no start or stop command is ever issued — every traced
command is the status print — and the stopped set stays empty forever. -/
theorem mainRun_zero_chances (services : Finset String) (sleep_time : ℚ)
    (l : List (Draws × Exits))
    (hd : ∀ de ∈ l, 0 ≤ de.1.startDraw ∧ 0 ≤ de.1.stopDraw) :
    (mainRun services 0 0 sleep_time l initState).1.stopped_services = ∅ ∧
    ∀ ce ∈ (mainRun services 0 0 sleep_time l initState).2, ce.1 = Command.ps :=
  mainRun_zero_aux services sleep_time l initState rfl hd

/-- Concrete check of C6 over a two-iteration run. -/
theorem mainRun_zero_chances_witness :
    (mainRun {"a"} 0 0 0 [(dZero, eZero), (dZero, eOne)] initState).1.stopped_services = ∅ ∧
    ∀ ce ∈ (mainRun {"a"} 0 0 0 [(dZero, eZero), (dZero, eOne)] initState).2,
      ce.1 = Command.ps :=
  mainRun_zero_chances {"a"} 0 [(dZero, eZero), (dZero, eOne)] (by decide)

/-- C7: with services `{node1}`, stopping-chance 1, starting-chance 0 and
sleep-time 0, the first iteration stops `node1` and prints the status; the
second iteration has an empty available set, its start draw cannot succeed,
no command is issued, and the sleeping message is logged instead of a
status print. -/
theorem chaos_example_single_node (d1 d2 : Draws) (e1 e2 : Exits)
    (h1 : d1.stopDraw < 1) (h2 : 0 ≤ d2.startDraw) :
    mainStep {"node1"} 1 0 0 d1 e1 initState
      = (ChaosState.mk {"node1"} false,
         [(Command.stop "node1", e1.stopExit), (Command.ps, e1.psExit)], false) ∧
    mainStep {"node1"} 1 0 0 d2 e2 (ChaosState.mk {"node1"} false)
      = (ChaosState.mk {"node1"} false, [], true) := by
  constructor
  · have hc1 : ¬(initState.stopped_services.Nonempty ∧ d1.startDraw < 0) := by
      rintro ⟨hne, _⟩
      exact Finset.not_nonempty_empty hne
    have hsd : ({"node1"} : Finset String) \ initState.stopped_services = {"node1"} := by
      simp [initState]
    have hc2 : (({"node1"} : Finset String) \ initState.stopped_services).Nonempty
        ∧ d1.stopDraw < 1 := by
      rw [hsd]
      exact ⟨Finset.singleton_nonempty _, h1⟩
    rw [mainStep_stop _ _ _ _ _ _ _ hc1 hc2, hsd, choice_singleton]
    simp [initState]
  · have hc1 : ¬((ChaosState.mk {"node1"} false).stopped_services.Nonempty
        ∧ d2.startDraw < 0) := by
      rintro ⟨_, hlt⟩
      exact absurd hlt (not_lt.mpr h2)
    have hc2 : ¬((({"node1"} : Finset String)
        \ (ChaosState.mk {"node1"} false).stopped_services).Nonempty
        ∧ d2.stopDraw < 1) := by
      rintro ⟨hne, _⟩
      rw [show (ChaosState.mk ({"node1"} : Finset String) false).stopped_services
            = {"node1"} from rfl, Finset.sdiff_self] at hne
      exact Finset.not_nonempty_empty hne
    exact mainStep_sleep _ _ _ _ _ _ _ hc1 hc2 rfl

/-- Concrete check of C7 with all draws zero. -/
theorem chaos_example_single_node_witness :
    mainStep {"node1"} 1 0 0 dZero eZero initState
      = (ChaosState.mk {"node1"} false,
         [(Command.stop "node1", 0), (Command.ps, 0)], false) ∧
    mainStep {"node1"} 1 0 0 dZero eZero (ChaosState.mk {"node1"} false)
      = (ChaosState.mk {"node1"} false, [], true) :=
  chaos_example_single_node dZero dZero eZero eZero (by decide) (by decide)

/-- C8: with every option absent, the parsed arguments are the full node set
`{node1, node2, node3}`, stopping-chance `0.1 = 1/10`, starting-chance
`0.3 = 3/10` and sleep-time `5`. -/
theorem parseArgs_defaults :
    parseArgs none none none none
      = Args.mk {"node1", "node2", "node3"} (1 / 10) (3 / 10) 5 := by
  simp only [parseArgs, Option.map_none', Option.getD_none, ALL_SERVICES, Args.mk.injEq]
  norm_num

/-- When a status print is due on entry, the iteration never logs the
sleeping message and always issues a `ps` command. -/
theorem mainStep_ps_due (services : Finset String)
    (stopping_chance starting_chance sleep_time : ℚ) (d : Draws) (e : Exits) (s : ChaosState)
    (hp : s.print_ps = true) :
    (mainStep services stopping_chance starting_chance sleep_time d e s).2.2 = false ∧
    Command.ps ∈
      (mainStep services stopping_chance starting_chance sleep_time d e s).2.1.map Prod.fst := by
  by_cases hc1 : s.stopped_services.Nonempty ∧ d.startDraw < starting_chance
  · rw [mainStep_start _ _ _ _ _ _ _ hc1]
    exact ⟨rfl, by simp⟩
  · by_cases hc2 : (services \ s.stopped_services).Nonempty ∧ d.stopDraw < stopping_chance
    · rw [mainStep_stop _ _ _ _ _ _ _ hc1 hc2]
      exact ⟨rfl, by simp⟩
    · rw [mainStep_ps _ _ _ _ _ _ _ hc1 hc2 hp]
      exact ⟨rfl, by simp⟩

/-- Every iteration leaves the status-print flag cleared. -/
theorem mainStep_print_cleared (services : Finset String)
    (stopping_chance starting_chance sleep_time : ℚ) (d : Draws) (e : Exits) (s : ChaosState) :
    (mainStep services stopping_chance starting_chance sleep_time d e s).1.print_ps = false := by
  by_cases hc1 : s.stopped_services.Nonempty ∧ d.startDraw < starting_chance
  · rw [mainStep_start _ _ _ _ _ _ _ hc1]
  · by_cases hc2 : (services \ s.stopped_services).Nonempty ∧ d.stopDraw < stopping_chance
    · rw [mainStep_stop _ _ _ _ _ _ _ hc1 hc2]
    · cases hp : s.print_ps
      · rw [mainStep_sleep _ _ _ _ _ _ _ hc1 hc2 hp]
        exact hp
      · rw [mainStep_ps _ _ _ _ _ _ _ hc1 hc2 hp]

/-- C9: `print_ps` starts true, so the very first iteration always issues a
`ps` command and never logs the no-action message; every iteration clears
the flag, and from a cleared flag an iteration that issues no command logs
the no-action message instead. -/
theorem mainStep_first_print (services : Finset String)
    (stopping_chance starting_chance sleep_time : ℚ) (d : Draws) (e : Exits) (s : ChaosState) :
    (mainStep services stopping_chance starting_chance sleep_time d e initState).2.2 = false ∧
    Command.ps ∈
      (mainStep services stopping_chance starting_chance sleep_time d e
        initState).2.1.map Prod.fst ∧
    (mainStep services stopping_chance starting_chance sleep_time d e s).1.print_ps = false ∧
    (s.print_ps = false →
      (mainStep services stopping_chance starting_chance sleep_time d e s).2.1 = [] →
      (mainStep services stopping_chance starting_chance sleep_time d e s).2.2 = true) := by
  obtain ⟨hfirst, hps⟩ :=
    mainStep_ps_due services stopping_chance starting_chance sleep_time d e initState rfl
  refine ⟨hfirst, hps,
    mainStep_print_cleared services stopping_chance starting_chance sleep_time d e s, ?_⟩
  intro hp hcmds
  by_cases hc1 : s.stopped_services.Nonempty ∧ d.startDraw < starting_chance
  · rw [mainStep_start _ _ _ _ _ _ _ hc1] at hcmds
    simp at hcmds
  · by_cases hc2 : (services \ s.stopped_services).Nonempty ∧ d.stopDraw < stopping_chance
    · rw [mainStep_stop _ _ _ _ _ _ _ hc1 hc2] at hcmds
      simp at hcmds
    · rw [mainStep_sleep _ _ _ _ _ _ _ hc1 hc2 hp]

/-- Concrete check of C9's no-action conjunct: cleared flag, zero chances,
no commands, sleeping message. -/
theorem mainStep_first_print_witness :
    (mainStep {"a"} 0 0 0 dZero eZero (ChaosState.mk ∅ false)).2.2 = true :=
  (mainStep_first_print {"a"} 0 0 0 dZero eZero (ChaosState.mk ∅ false)).2.2.2
    rfl (by decide)

/-- Splitting on commas always produces at least one piece. -/
theorem splitCommas_ne_nil (l : List Char) : splitCommas l ≠ [] := by
  cases l with
  | nil => simp [splitCommas]
  | cons c rest =>
    rw [splitCommas]
    rcases hsc : splitCommas rest with _ | ⟨p, ps⟩
    · simp
    · by_cases hc : c = ','
      · simp [hc]
      · simp [hc]

/-- C10: the `--services` conversion splits on commas, strips each piece and
collects the pieces into a set, so duplicates collapse; the result is
non-empty for every input, and the empty string parses to the singleton set
holding the empty identifier. -/
theorem parseServices_nonempty :
    (∀ s : String, (parseServices s).Nonempty) ∧
    parseServices "" = {""} ∧
    parseServices "a, a ,b" = {"a", "b"} := by
  refine ⟨?_, by decide, by decide⟩
  intro s
  rw [Finset.nonempty_iff_ne_empty, parseServices]
  intro habs
  rw [List.toFinset_eq_empty_iff, List.map_eq_nil_iff] at habs
  exact splitCommas_ne_nil s.data habs

/-- C4 as stated is false: with stopping-chance 1 and starting-chance 1,
after one iteration (which stops `a`) the available set is still non-empty,
yet the next iteration issues no stop command — its start branch fires
first. -/
theorem stopping_one_counterexample :
    (mainRun {"a", "b"} 1 1 0 [(dZero, eZero)] initState).1 = ChaosState.mk {"a"} false ∧
    (({"a", "b"} : Finset String) \ (ChaosState.mk {"a"} false).stopped_services).Nonempty ∧
    (mainStep {"a", "b"} 1 1 0 dZero eZero (ChaosState.mk {"a"} false)).2.1.countP isStopCmd
      = 0 := by
  have hab : ("a" : String) < "b" := by
    rw [String.lt_iff_toList_lt]
    decide
  refine ⟨?_, by decide, ?_⟩
  · have hc1 : ¬(initState.stopped_services.Nonempty ∧ dZero.startDraw < 1) := by
      rintro ⟨hne, _⟩
      exact Finset.not_nonempty_empty hne
    have hsd : ({"a", "b"} : Finset String) \ initState.stopped_services = {"a", "b"} := by
      simp [initState]
    have hc2 : (({"a", "b"} : Finset String) \ initState.stopped_services).Nonempty
        ∧ dZero.stopDraw < 1 := by
      rw [hsd]
      exact ⟨Finset.insert_nonempty _ _, by decide⟩
    have hrun : (mainRun {"a", "b"} 1 1 0 [(dZero, eZero)] initState).1
        = (mainStep {"a", "b"} 1 1 0 dZero eZero initState).1 := rfl
    rw [hrun, mainStep_stop _ _ _ _ _ _ _ hc1 hc2, hsd]
    have hch : dZero.stopChoice = 0 := rfl
    rw [hch, choice_pair_zero _ _ hab]
    simp [initState]
  · have hc1 : (ChaosState.mk ({"a"} : Finset String) false).stopped_services.Nonempty
        ∧ dZero.startDraw < 1 :=
      ⟨Finset.singleton_nonempty _, by decide⟩
    rw [mainStep_start _ _ _ _ _ _ _ hc1]
    simp [List.countP_cons, isStopCmd]

/-- With stopping-chance 1, starting-chance 0 and draws in `[0,1)`, a run
stops one service per iteration while any are available and none once all
are stopped: the stopped set grows to `min` of iterations and service
count, with exactly that many stop commands issued. -/
theorem mainRun_stopping_one_aux (services : Finset String) (sleep_time : ℚ) :
    ∀ (l : List (Draws × Exits)) (s : ChaosState), s.stopped_services ⊆ services →
      (∀ de ∈ l, 0 ≤ de.1.startDraw ∧ de.1.stopDraw < 1) →
      (mainRun services 1 0 sleep_time l s).1.stopped_services.card
          = min (s.stopped_services.card + l.length) services.card ∧
      (mainRun services 1 0 sleep_time l s).2.countP isStopCmd
          = min (s.stopped_services.card + l.length) services.card
            - s.stopped_services.card := by
  intro l
  induction l with
  | nil =>
    intro s hsub _
    have hle : s.stopped_services.card ≤ services.card := Finset.card_le_card hsub
    rw [mainRun_nil]
    constructor
    · simp
      omega
    · simp
  | cons de rest ih =>
    intro s hsub hd
    have hc1 : ¬(s.stopped_services.Nonempty ∧ de.1.startDraw < 0) := by
      rintro ⟨_, hlt⟩
      exact absurd hlt (not_lt.mpr (hd de (List.mem_cons_self _ _)).1)
    have hdrest : ∀ de' ∈ rest, 0 ≤ de'.1.startDraw ∧ de'.1.stopDraw < 1 :=
      fun de' h' => hd de' (List.mem_cons_of_mem _ h')
    rcases Finset.eq_empty_or_nonempty (services \ s.stopped_services) with hav | hav
    · have hcard : s.stopped_services.card = services.card := by
        rw [Finset.Subset.antisymm hsub (Finset.sdiff_eq_empty_iff_subset.mp hav)]
      have hc2 : ¬((services \ s.stopped_services).Nonempty ∧ de.1.stopDraw < 1) := by
        rintro ⟨hne, _⟩
        rw [hav] at hne
        exact Finset.not_nonempty_empty hne
      obtain ⟨ih1, ih2⟩ := ih s hsub hdrest
      cases hp : s.print_ps
      · have hstep := mainStep_sleep services 1 0 sleep_time de.1 de.2 s hc1 hc2 hp
        have hrun1 : (mainRun services 1 0 sleep_time (de :: rest) s).1
            = (mainRun services 1 0 sleep_time rest s).1 := by
          rw [mainRun_cons, hstep]
        have hrun2 : (mainRun services 1 0 sleep_time (de :: rest) s).2
            = (mainRun services 1 0 sleep_time rest s).2 := by
          rw [mainRun_cons, hstep]
          rw [List.nil_append]
        rw [hrun1, hrun2, ih1, ih2]
        simp only [List.length_cons]
        omega
      · have hstep := mainStep_ps services 1 0 sleep_time de.1 de.2 s hc1 hc2 hp
        have hrun1 : (mainRun services 1 0 sleep_time (de :: rest) s).1
            = (mainRun services 1 0 sleep_time rest (ChaosState.mk s.stopped_services false)).1 := by
          rw [mainRun_cons, hstep]
        have hrun2 : (mainRun services 1 0 sleep_time (de :: rest) s).2
            = [(Command.ps, de.2.psExit)]
              ++ (mainRun services 1 0 sleep_time rest
                    (ChaosState.mk s.stopped_services false)).2 := by
          rw [mainRun_cons, hstep]
        obtain ⟨ih1', ih2'⟩ := ih (ChaosState.mk s.stopped_services false) hsub hdrest
        rw [hrun1, hrun2, List.countP_append, ih1', ih2']
        simp only [List.length_cons, List.countP_cons, List.countP_nil, isStopCmd]
        constructor
        · omega
        · simp
          omega
    · have hc2 : (services \ s.stopped_services).Nonempty ∧ de.1.stopDraw < 1 :=
        ⟨hav, (hd de (List.mem_cons_self _ _)).2⟩
      have hstep := mainStep_stop services 1 0 sleep_time de.1 de.2 s hc1 hc2
      have hymem := choice_mem (services \ s.stopped_services) de.1.stopChoice hav
      have hynot : choice (services \ s.stopped_services) de.1.stopChoice ∉ s.stopped_services :=
        (Finset.mem_sdiff.mp hymem).2
      have hsub' : insert (choice (services \ s.stopped_services) de.1.stopChoice)
          s.stopped_services ⊆ services :=
        Finset.insert_subset (Finset.mem_sdiff.mp hymem).1 hsub
      have hcard' : (insert (choice (services \ s.stopped_services) de.1.stopChoice)
          s.stopped_services).card = s.stopped_services.card + 1 :=
        Finset.card_insert_of_not_mem hynot
      have hle : s.stopped_services.card + 1 ≤ services.card := by
        rw [← hcard']
        exact Finset.card_le_card hsub'
      have hrun1 : (mainRun services 1 0 sleep_time (de :: rest) s).1
          = (mainRun services 1 0 sleep_time rest
              (ChaosState.mk
                (insert (choice (services \ s.stopped_services) de.1.stopChoice)
                  s.stopped_services) false)).1 := by
        rw [mainRun_cons, hstep]
      have hrun2 : (mainRun services 1 0 sleep_time (de :: rest) s).2
          = [(Command.stop (choice (services \ s.stopped_services) de.1.stopChoice),
                de.2.stopExit), (Command.ps, de.2.psExit)]
            ++ (mainRun services 1 0 sleep_time rest
                  (ChaosState.mk
                    (insert (choice (services \ s.stopped_services) de.1.stopChoice)
                      s.stopped_services) false)).2 := by
        rw [mainRun_cons, hstep]
      obtain ⟨ih1, ih2⟩ := ih
        (ChaosState.mk
          (insert (choice (services \ s.stopped_services) de.1.stopChoice)
            s.stopped_services) false) hsub' hdrest
      rw [hrun1, hrun2, List.countP_append, ih1, ih2]
      simp only [List.length_cons, List.countP_cons, List.countP_nil, isStopCmd, hcard']
      constructor
      · omega
      · simp
        omega

/-- C4 amended: from the initial state with stopping-chance 1, when the
start branch never fires (starting-chance 0, draws in `[0,1)`), after `n`
iterations exactly `min n |services|` services are stopped and exactly that
many stop commands were issued — one per iteration until the available set
becomes empty, none afterwards. -/
theorem mainRun_stopping_one (services : Finset String) (sleep_time : ℚ)
    (l : List (Draws × Exits))
    (hd : ∀ de ∈ l, 0 ≤ de.1.startDraw ∧ de.1.stopDraw < 1) :
    (mainRun services 1 0 sleep_time l initState).1.stopped_services.card
        = min l.length services.card ∧
    (mainRun services 1 0 sleep_time l initState).2.countP isStopCmd
        = min l.length services.card := by
  obtain ⟨h1, h2⟩ := mainRun_stopping_one_aux services sleep_time l initState
    (by simp [initState]) hd
  constructor
  · simpa [initState] using h1
  · simpa [initState] using h2

/-- Concrete check of the amended C4: one service, one iteration, one stop. -/
theorem mainRun_stopping_one_witness :
    (mainRun {"a"} 1 0 0 [(dZero, eZero)] initState).1.stopped_services.card
        = min [(dZero, eZero)].length ({"a"} : Finset String).card ∧
    (mainRun {"a"} 1 0 0 [(dZero, eZero)] initState).2.countP isStopCmd
        = min [(dZero, eZero)].length ({"a"} : Finset String).card :=
  mainRun_stopping_one {"a"} 0 [(dZero, eZero)] (by decide)
